import Mathlib

/-!
Verification of the rewol aggregator core (`rewolserver/rewol.py`) against its
natural-language specification.

The Python source is shallowly embedded: Python dicts keyed by strings become
association lists (`Dict`), mutation becomes explicit state passing, `datetime`
values become rationals (seconds), fallible operations return `Except PyExc`,
and the transport layer (`requests`) is an explicit oracle argument.
-/

namespace Rewol

/-- A Python `dict` with string keys, as an association list.  Python dict
assignment `d[k] = v` overwrites in place (keeping position) or appends, which
`dinsert` mirrors; iteration order is insertion order, which list order
mirrors. -/
abbrev Dict (α : Type) := List (String × α)

/-- Lookup, `d.get(k)` / `d[k]`. -/
def dget? {α : Type} (k : String) (d : Dict α) : Option α :=
  (d.find? (fun p => p.1 == k)).map (fun p => p.2)

/-- Python `d[k] = v`: replace the existing binding in place, else append. -/
def dinsert {α : Type} (k : String) (v : α) (d : Dict α) : Dict α :=
  if d.any (fun p => p.1 == k) then
    d.map (fun p => if p.1 == k then (k, v) else p)
  else
    d ++ [(k, v)]

/-- Python `d.update(s)`: insert every binding of `s` into `d` in order. -/
def dupdate {α : Type} (d s : Dict α) : Dict α :=
  s.foldl (fun acc p => dinsert p.1 p.2 acc) d

/-- The value of the last binding of `k` in `s` (what survives after feeding
`s` into a dict in order), if any. -/
def lastLook {α : Type} (k : String) : Dict α → Option α
  | [] => none
  | p :: s =>
    match lastLook k s with
    | some v => some v
    | none => if p.1 == k then some p.2 else none

/-- The keys of an association list are pairwise distinct (the invariant of an
actual Python dict). -/
def keysND {α : Type} (d : Dict α) : Prop := (d.map Prod.fst).Nodup

/-- Number of bindings of key `k`. -/
def countKey {α : Type} (k : String) (d : Dict α) : Nat :=
  (d.filter (fun p => p.1 == k)).length

/-- Python exceptions that the embedded code can raise or catch. -/
inductive PyExc where
  /-- `requests.exceptions.RequestException` (timeouts, refused connections …). -/
  | requestException (msg : String)
  /-- `binascii.Error` raised by `base64.b64decode`. -/
  | binasciiError (msg : String)
  /-- `TypeError` (e.g. `b64decode(None)`). -/
  | typeError
  /-- `AttributeError` (e.g. `None.encode("utf-8")`). -/
  | attributeError
deriving DecidableEq

instance {ε α : Type} [DecidableEq ε] [DecidableEq α] : DecidableEq (Except ε α) :=
  fun a b =>
    match a, b with
    | .ok x, .ok y =>
      if h : x = y then isTrue (by rw [h]) else isFalse (by intro hc; cases hc; exact h rfl)
    | .error x, .error y =>
      if h : x = y then isTrue (by rw [h]) else isFalse (by intro hc; cases hc; exact h rfl)
    | .ok _, .error _ => isFalse (by intro hc; cases hc)
    | .error _, .ok _ => isFalse (by intro hc; cases hc)

/-- UTF-8 encoding of one Unicode scalar value (`str.encode("utf-8")`,
per character). -/
def utf8Char (c : Char) : List Nat :=
  let n := c.toNat
  if n < 0x80 then [n]
  else if n < 0x800 then
    [0xc0 ||| (n >>> 6), 0x80 ||| (n &&& 0x3f)]
  else if n < 0x10000 then
    [0xe0 ||| (n >>> 12), 0x80 ||| ((n >>> 6) &&& 0x3f), 0x80 ||| (n &&& 0x3f)]
  else
    [0xf0 ||| (n >>> 18), 0x80 ||| ((n >>> 12) &&& 0x3f),
     0x80 ||| ((n >>> 6) &&& 0x3f), 0x80 ||| (n &&& 0x3f)]

/-- `s.encode("utf-8")` as a byte list. -/
def utf8Bytes (s : String) : List Nat :=
  (s.toList.map utf8Char).flatten

/-- The standard base64 alphabet. -/
def b64Alph : List Char :=
  "ABCDEFGHIJKLMNOPQRSTUVWXYZabcdefghijklmnopqrstuvwxyz0123456789+/".toList

/-- Base64-encode a byte list, 3 bytes to 4 characters, `=`-padded
(`base64.b64encode`). -/
def b64encodeCore : List Nat → List Char
  | b1 :: b2 :: b3 :: rest =>
    let n := b1 * 65536 + b2 * 256 + b3
    b64Alph.getD (n / 262144 % 64) 'A' :: b64Alph.getD (n / 4096 % 64) 'A' ::
      b64Alph.getD (n / 64 % 64) 'A' :: b64Alph.getD (n % 64) 'A' :: b64encodeCore rest
  | [b1, b2] =>
    let n := b1 * 65536 + b2 * 256
    [b64Alph.getD (n / 262144 % 64) 'A', b64Alph.getD (n / 4096 % 64) 'A',
     b64Alph.getD (n / 64 % 64) 'A', '=']
  | [b1] =>
    let n := b1 * 65536
    [b64Alph.getD (n / 262144 % 64) 'A', b64Alph.getD (n / 4096 % 64) 'A', '=', '=']
  | [] => []

/-- `base64.b64encode(bytes).decode("utf-8")`. -/
def b64encode (l : List Nat) : String :=
  ⟨b64encodeCore l⟩

/-- Is `c` in the base64 alphabet (excluding padding)? -/
def isB64Char (c : Char) : Bool :=
  ('A' ≤ c && c ≤ 'Z') || ('a' ≤ c && c ≤ 'z') || ('0' ≤ c && c ≤ '9') ||
    c == '+' || c == '/'

/-- Index of an alphabet character. -/
def b64CharVal (c : Char) : Nat :=
  if 'A' ≤ c && c ≤ 'Z' then c.toNat - 65
  else if 'a' ≤ c && c ≤ 'z' then c.toNat - 71
  else if '0' ≤ c && c ≤ '9' then c.toNat + 4
  else if c == '+' then 62
  else 63

/-- Decode base64 data characters in groups of four (final group of two or
three characters yields one or two bytes; trailing bits are discarded, as in
non-strict `binascii`). -/
def decodeQuads : List Char → List Nat
  | c1 :: c2 :: c3 :: c4 :: rest =>
    let n := b64CharVal c1 * 262144 + b64CharVal c2 * 4096 + b64CharVal c3 * 64 + b64CharVal c4
    n / 65536 % 256 :: n / 256 % 256 :: n % 256 :: decodeQuads rest
  | [c1, c2] =>
    [(b64CharVal c1) <<< 2 ||| (b64CharVal c2) >>> 4]
  | [c1, c2, c3] =>
    [(b64CharVal c1) <<< 2 ||| (b64CharVal c2) >>> 4,
     ((b64CharVal c2) &&& 15) <<< 4 ||| (b64CharVal c3) >>> 2]
  | [c1] => [b64CharVal c1]
  | [] => []

/-- `base64.b64decode(s)` with `validate=False`: characters outside the
alphabet or `=` are discarded; a data length ≡ 1 (mod 4) is an invalid
encoding, and data plus padding must reach a multiple of four characters,
else `binascii.Error` is raised. -/
def b64decodeE (s : String) : Except PyExc (List Nat) :=
  let kept := s.toList.filter (fun c => isB64Char c || c == '=')
  let data := kept.takeWhile (fun c => c != '=')
  let npad := kept.length - data.length
  if data.length % 4 == 1 then
    .error (.binasciiError "Invalid base64-encoded string")
  else if (data.length + npad) % 4 != 0 then
    .error (.binasciiError "Incorrect padding")
  else
    .ok (decodeQuads data)

/-- 32-bit truncated addition. -/
def add32 (a b : Nat) : Nat := (a + b) % 4294967296

/-- Rotate a 32-bit word right by `n`. -/
def rotr32 (n x : Nat) : Nat := ((x >>> n) ||| (x <<< (32 - n))) % 4294967296

/-- SHA-256 big sigma-0. -/
def capSig0 (x : Nat) : Nat := rotr32 2 x ^^^ rotr32 13 x ^^^ rotr32 22 x

/-- SHA-256 big sigma-1. -/
def capSig1 (x : Nat) : Nat := rotr32 6 x ^^^ rotr32 11 x ^^^ rotr32 25 x

/-- SHA-256 small sigma-0. -/
def smSig0 (x : Nat) : Nat := rotr32 7 x ^^^ rotr32 18 x ^^^ (x >>> 3)

/-- SHA-256 small sigma-1. -/
def smSig1 (x : Nat) : Nat := rotr32 17 x ^^^ rotr32 19 x ^^^ (x >>> 10)

/-- SHA-256 choice function (`¬x` as xor with the 32-bit mask). -/
def shaCh (x y z : Nat) : Nat := (x &&& y) ^^^ ((x ^^^ 4294967295) &&& z)

/-- SHA-256 majority function. -/
def shaMaj (x y z : Nat) : Nat := (x &&& y) ^^^ (x &&& z) ^^^ (y &&& z)

/-- The 64 SHA-256 round constants (FIPS 180-4), in decimal. -/
def shaK : List Nat :=
  [1116352408, 1899447441, 3049323471, 3921009573, 961987163,
   1508970993, 2453635748, 2870763221, 3624381080, 310598401,
   607225278, 1426881987, 1925078388, 2162078206, 2614888103,
   3248222580, 3835390401, 4022224774, 264347078, 604807628,
   770255983, 1249150122, 1555081692, 1996064986, 2554220882,
   2821834349, 2952996808, 3210313671, 3336571891, 3584528711,
   113926993, 338241895, 666307205, 773529912, 1294757372,
   1396182291, 1695183700, 1986661051, 2177026350, 2456956037,
   2730485921, 2820302411, 3259730800, 3345764771, 3516065817,
   3600352804, 4094571909, 275423344, 430227734, 506948616,
   659060556, 883997877, 958139571, 1322822218, 1537002063,
   1747873779, 1955562222, 2024104815, 2227730452, 2361852424,
   2428436474, 2756734187, 3204031479, 3329325298]

/-- An eight-word SHA-256 state. -/
structure Hash8 where
  a : Nat
  b : Nat
  c : Nat
  d : Nat
  e : Nat
  f : Nat
  g : Nat
  h : Nat
deriving DecidableEq

/-- SHA-256 initial state (FIPS 180-4), in decimal. -/
def shaH0 : Hash8 :=
  ⟨1779033703, 3144134277, 1013904242, 2773480762,
   1359893119, 2600822924, 528734635, 1541459225⟩

/-- Big-endian bytes of a 32-bit word. -/
def word32Bytes (w : Nat) : List Nat :=
  [w / 16777216 % 256, w / 65536 % 256, w / 256 % 256, w % 256]

/-- Big-endian bytes of a 64-bit word. -/
def word64Bytes (w : Nat) : List Nat :=
  [w / 72057594037927936 % 256, w / 281474976710656 % 256, w / 1099511627776 % 256,
   w / 4294967296 % 256, w / 16777216 % 256, w / 65536 % 256, w / 256 % 256, w % 256]

/-- SHA-256 padding: append `0x80`, zeros to 56 mod 64, then the bit length
as eight big-endian bytes. -/
def shaPad (msg : List Nat) : List Nat :=
  msg ++ 0x80 :: List.replicate ((119 - msg.length % 64) % 64) 0 ++ word64Bytes (8 * msg.length)

/-- Split a list into consecutive 64-element blocks (the length is assumed to
be a multiple of 64, as produced by `shaPad`). -/
def toBlocks (l : List Nat) : List (List Nat) :=
  (List.range (l.length / 64)).map (fun i => ((l.drop (64 * i)).take 64))

/-- A big-endian 32-bit word from bytes. -/
def ofBytesBE (l : List Nat) : Nat :=
  l.foldl (fun acc b => acc * 256 + b) 0

/-- The sixteen message words of one 64-byte block. -/
def wordsOfBlock (blk : List Nat) : List Nat :=
  (List.range 16).map (fun i => ofBytesBE ((blk.drop (4 * i)).take 4))

/-- Extend sixteen message words to the sixty-four-word SHA-256 schedule. -/
def msgSchedule (ws : List Nat) : List Nat :=
  (List.range 48).foldl
    (fun ws i =>
      ws ++ [add32 (add32 (smSig1 (ws.getD (i + 14) 0)) (ws.getD (i + 9) 0))
               (add32 (smSig0 (ws.getD (i + 1) 0)) (ws.getD i 0))])
    ws

/-- One SHA-256 compression round. -/
def shaRound (w : List Nat) (s : Hash8) (t : Nat) : Hash8 :=
  let T1 := add32 s.h (add32 (capSig1 s.e) (add32 (shaCh s.e s.f s.g)
              (add32 (shaK.getD t 0) (w.getD t 0))))
  let T2 := add32 (capSig0 s.a) (shaMaj s.a s.b s.c)
  ⟨add32 T1 T2, s.a, s.b, s.c, add32 s.d T1, s.e, s.f, s.g⟩

/-- Compress one 64-byte block into the running state. -/
def compressBlock (h : Hash8) (blk : List Nat) : Hash8 :=
  let w := msgSchedule (wordsOfBlock blk)
  let st := (List.range 64).foldl (shaRound w) h
  ⟨add32 h.a st.a, add32 h.b st.b, add32 h.c st.c, add32 h.d st.d,
   add32 h.e st.e, add32 h.f st.f, add32 h.g st.g, add32 h.h st.h⟩

/-- SHA-256 of a byte list (`hashlib.sha256(...).digest()`). -/
def sha256 (msg : List Nat) : List Nat :=
  let hf := (toBlocks (shaPad msg)).foldl compressBlock shaH0
  word32Bytes hf.a ++ word32Bytes hf.b ++ word32Bytes hf.c ++ word32Bytes hf.d ++
    word32Bytes hf.e ++ word32Bytes hf.f ++ word32Bytes hf.g ++ word32Bytes hf.h

/-- HMAC-SHA256 with a 64-byte block size (`hmac.new(key, msg, "sha256")`). -/
def hmacSha256 (key msg : List Nat) : List Nat :=
  let k0 := if 64 < key.length then sha256 key else key
  let kp := k0 ++ List.replicate (64 - k0.length) 0
  sha256 ((kp.map (fun b => b ^^^ 0x5c)) ++ sha256 ((kp.map (fun b => b ^^^ 0x36)) ++ msg))

/-- Pointwise xor of two byte lists. -/
def listXor (a b : List Nat) : List Nat :=
  List.zipWith (fun x y => x ^^^ y) a b

/-- `hashlib.pbkdf2_hmac("sha256", password, salt, iters)` with the default
`dklen` of 32 bytes: a single block `F(password, salt, iters, 1)`, the xor of
`iters` successive HMAC applications (`iters ≥ 1` is required by `hashlib`). -/
def pbkdf2HmacSha256 (password salt : List Nat) (iters : Nat) : List Nat :=
  let u1 := hmacSha256 password (salt ++ [0, 0, 0, 1])
  ((List.range (iters - 1)).foldl
    (fun st _ => (listXor st.1 (hmacSha256 password st.2), hmacSha256 password st.2))
    (u1, u1)).1

/-- `verify_password`'s `try` body: decode the salt, derive the candidate
hash (PBKDF2-HMAC-SHA256, 600000 iterations) and compare its base64 encoding
with the stored hash string.  The three inputs come from HTTP form fields or
configuration and may be absent (`None`). -/
def verifyE (inputPassword storedHash salt : Option String) : Except PyExc Bool :=
  match salt with
  | none => .error .typeError
  | some s =>
    match b64decodeE s with
    | .error e => .error e
    | .ok saltBytes =>
      match inputPassword with
      | none => .error .attributeError
      | some p =>
        .ok (match storedHash with
          | some sh => b64encode (pbkdf2HmacSha256 (utf8Bytes p) saltBytes 600000) == sh
          | none => false)

/-- `verify_password` (rewol.py): the `try` body with a catch-all `except`
returning `False`. -/
def verify_password (inputPassword storedHash salt : Option String) : Bool :=
  match verifyE inputPassword storedHash salt with
  | .ok b => b
  | .error _ => false

/-- `hash_password` (generatepwdandsalt.py): decode the salt (uncaught
`binascii.Error` on failure), derive PBKDF2-HMAC-SHA256 with 600000
iterations and base64-encode the result. -/
def hash_passwordE (password salt : String) : Except PyExc String :=
  match b64decodeE salt with
  | .error e => .error e
  | .ok saltBytes => .ok (b64encode (pbkdf2HmacSha256 (utf8Bytes password) saltBytes 600000))

/-- The bytes of a PBKDF2 derivation over the empty salt, as a function into a
finite type (used to compare derivations of different passwords). -/
def hashByteFun (p : String) : Fin 32 → Fin 256 :=
  fun i => Fin.ofNat ((pbkdf2HmacSha256 (utf8Bytes p) [] 600000).getD i.val 0)

/-- One backend entry of the `backends:` configuration list, with the keys the
monitor code reads (`host`, `address`, `password`). -/
structure Backend where
  host : String
  address : String
  password : String
deriving DecidableEq

/-- One host dict as built by the aggregator.  Python builds these dicts
incrementally, so every key is optional; `none` means the key is absent. -/
structure HostEntry where
  status : Option Nat
  name : Option String
  backend_name : Option String
  backend_address : Option String
  backend_password : Option String
  is_proxy_down : Option Bool
  last_checked : Option ℚ
deriving DecidableEq

/-- The dict `{"status": int(status), "name": host}` built by the exposition
parser for one metric line. -/
def parsedEntry (st : Nat) (nm : String) : HostEntry :=
  ⟨some st, some nm, none, none, none, none, none⟩

/-- Strip an exact literal character sequence from the front of `s`. -/
def dropLit : List Char → List Char → Option (List Char)
  | [], s => some s
  | _ :: _, [] => none
  | p :: ps, c :: cs => if c = p then dropLit ps cs else none

/-- The literal part `rewol_host_up{host="` of the metric pattern. -/
def litPat : List Char := "rewol_host_up\x7bhost=\"".toList

/-- Python `\s` on the inputs at hand (ASCII whitespace). -/
def isPySpace (c : Char) : Bool :=
  c == ' ' || c == '\t' || c == '\n' || c == '\r' || c == '\x0b' || c == '\x0c'

/-- Try to match `rewol_host_up\{host="([^"]+)"\}\s+([01])` at the start of
`s`; on success return the captured host, the status digit and the suffix
after the match.  The two quantified pieces (`[^"]+`, `\s+`) are greedy and
their continuations (`"`, `[01]`) are disjoint from them, so maximal-munch
scanning is exactly the regex semantics. -/
def matchAt (s : List Char) : Option (String × Nat × List Char) :=
  match dropLit litPat s with
  | none => none
  | some r1 =>
    let cap := r1.takeWhile (fun c => c != '"')
    if cap.isEmpty then none
    else
      match dropLit ['"', '\x7d'] (r1.dropWhile (fun c => c != '"')) with
      | none => none
      | some r3 =>
        if (r3.takeWhile isPySpace).isEmpty then none
        else
          match r3.dropWhile isPySpace with
          | '0' :: r5 => some (⟨cap⟩, 0, r5)
          | '1' :: r5 => some (⟨cap⟩, 1, r5)
          | _ => none

/-- `re.findall` over the text: leftmost non-overlapping matches, restarting
after each match.  Each step consumes at least one character (a successful
match consumes at least the literal), so `fuel := s.length` never runs out. -/
def findMatchesAux : Nat → List Char → List (String × Nat)
  | 0, _ => []
  | _ + 1, [] => []
  | fuel + 1, c :: rest =>
    match matchAt (c :: rest) with
    | some (h, st, rest') => (h, st) :: findMatchesAux fuel rest'
    | none => findMatchesAux fuel rest

/-- `parse_prometheus_metrics` (rewol.py): extract `rewol_host_up` samples
into `{host: {"status": int, "name": host}}`; later lines for the same host
overwrite earlier ones. -/
def parse_prometheus_metrics (text : String) : Dict HostEntry :=
  (findMatchesAux text.toList.length text.toList).foldl
    (fun d p => dinsert p.1 (parsedEntry p.2 p.1) d) []

/-- What one `requests.get` of a backend's status page produces: a raised
`requests.exceptions.RequestException`, or a response with a status code and
a body. -/
inductive FetchResult where
  | exc (msg : String)
  | resp (code : Nat) (text : String)
deriving DecidableEq

/-- Enrich each parsed host with the backend's provenance fields, as the
`for host_name, host_data in hosts.items()` loop does. -/
def enrich (b : Backend) (hosts : Dict HostEntry) : Dict HostEntry :=
  hosts.map (fun p =>
    (p.1, { p.2 with
             backend_name := some b.host
             backend_address := some b.address
             backend_password := some b.password
             name := some p.1
             is_proxy_down := some false }))

/-- `BackgroundMonitorThread._check_proxy_status`: on HTTP 200 parse and
enrich; on any other status code, or on a transport exception (caught by the
`except requests.exceptions.RequestException` clause), return `None`. -/
def check_proxy_status (b : Backend) (f : FetchResult) : Option (Dict HostEntry) :=
  match f with
  | .exc _ => none
  | .resp code text =>
    if code == 200 then some (enrich b (parse_prometheus_metrics text))
    else none

/-- The `try` body of `_check_proxy_status` with the transport exception left
uncaught, used to show the `except` clause covers every error the body can
raise. -/
def checkBodyE (b : Backend) (f : FetchResult) : Except PyExc (Option (Dict HostEntry)) :=
  match f with
  | .exc m => .error (.requestException m)
  | .resp code text =>
    if code == 200 then .ok (some (enrich b (parse_prometheus_metrics text)))
    else .ok none

/-- `_check_proxy_status` with its exception behaviour explicit: a raised
`requests.exceptions.RequestException` is caught and becomes `None`; any
other exception would propagate to the monitor loop. -/
def check_proxy_statusE (b : Backend) (f : FetchResult) : Except PyExc (Option (Dict HostEntry)) :=
  match checkBodyE b f with
  | .error (.requestException _) => .ok none
  | .error e => .error e
  | .ok r => .ok r

/-- The key of the placeholder entry for a down backend. -/
def downName (b : Backend) : String := b.host ++ " (proxy down)"

/-- The placeholder entry `_monitor_loop` synthesizes for a down backend. -/
def downEntry (b : Backend) : HostEntry :=
  ⟨some 0, some (downName b), some b.host, some b.address, some b.password, some true, none⟩

/-- The body of the `for backend in self.backends` loop: `if status:` is
Python truthiness, so both `None` and an empty dict take the placeholder
branch. -/
def applyStatus (d : Dict HostEntry) (b : Backend) (st : Option (Dict HostEntry)) :
    Dict HostEntry :=
  match st with
  | some s => if s.isEmpty then dinsert (downName b) (downEntry b) d else dupdate d s
  | none => dinsert (downName b) (downEntry b) d

/-- One iteration of the polling loop for one backend, given the transport
outcome for that backend. -/
def cycleStep (d : Dict HostEntry) (p : Backend × FetchResult) : Dict HostEntry :=
  applyStatus d p.1 (check_proxy_status p.1 p.2)

/-- What one poll cycle of `_monitor_loop` accumulates into `new_cache_data`,
given each configured backend (in configuration order) paired with its
transport outcome for this cycle. -/
def runCycle (ps : List (Backend × FetchResult)) : Dict HostEntry :=
  ps.foldl cycleStep []

/-- One poll cycle with the exception channel explicit: the only fallible
call in the loop body is `_check_proxy_status`. -/
def runCycleE (ps : List (Backend × FetchResult)) : Except PyExc (Dict HostEntry) :=
  ps.foldlM (fun d p => (check_proxy_statusE p.1 p.2).map (applyStatus d p.1)) []

/-- The per-backend contribution to the merged mapping (placeholder dict or
the enriched parse result). -/
def contrib (b : Backend) (f : FetchResult) : Dict HostEntry :=
  match check_proxy_status b f with
  | some s => if s.isEmpty then [(downName b, downEntry b)] else s
  | none => [(downName b, downEntry b)]

/-- `_check_proxy_status` against the successive outcomes the transport would
produce on successive attempts: the source issues exactly one `requests.get`
per call, consuming one outcome. -/
def check_proxy_statusT (b : Backend) (attempts : List FetchResult) :
    Option (Dict HostEntry) × Nat :=
  match attempts with
  | [] => (none, 0)
  | a :: _ => (check_proxy_status b a, 1)

/-- The fields `BackgroundMonitorThread.__init__(self, backends, cache)`
sets.  The constructor takes no retry count and no interval argument, and
creates no `max_retries` field. -/
structure MonitorState where
  backends : List Backend
  running : Bool
  monitor_interval : Nat
deriving DecidableEq

/-- `BackgroundMonitorThread.__init__`: `running = False`,
`monitor_interval = 5`, nothing else configurable. -/
def monitorInit (backends : List Backend) : MonitorState :=
  ⟨backends, false, 5⟩

/-- `ProxyStatusCache`'s state: the entry mapping and the `last_updated`
timestamp (absent before the first `replace_all`). -/
structure CacheState where
  cache : Dict HostEntry
  last_updated : Option ℚ
deriving DecidableEq

/-- The per-entry mutation `host_data["last_checked"] = datetime.now()`
performed by `replace_all` on each incoming record. -/
def stampEntry (t : ℚ) (v : HostEntry) : HostEntry :=
  { v with last_checked := some t }

/-- Stamp every incoming record. -/
def stampAll (t : ℚ) (d : Dict HostEntry) : Dict HostEntry :=
  d.map (fun p => (p.1, stampEntry t p.2))

/-- `ProxyStatusCache.replace_all`: stamp each incoming record (`tStamp` is
the wall clock at the per-record `datetime.now()` calls, modelled as one
instant for the whole batch; `tUpd` at the final call), then discard the
whole previous mapping.  The previous state `s` is never consulted. -/
def replace_all (s : CacheState) (newData : Dict HostEntry) (tStamp tUpd : ℚ) : CacheState :=
  { cache := stampAll tStamp newData, last_updated := some tUpd }

/-- `ProxyStatusCache.get_all`: a copy of the mapping and the timestamp. -/
def get_all (s : CacheState) : Dict HostEntry × Option ℚ :=
  (s.cache, s.last_updated)

/-- `ProxyStatusCache.is_stale`: `True` when never updated, else the strict
comparison `now - last_updated > max_age_seconds`. -/
def is_stale (s : CacheState) (now maxAge : ℚ) : Bool :=
  match s.last_updated with
  | none => true
  | some t => decide (now - t > maxAge)

/-- The cache's operations as one step function (state in, state and return
value out), to state which operations leave which parts untouched. -/
inductive CacheOp where
  | replaceAllOp (newData : Dict HostEntry) (tStamp tUpd : ℚ)
  | getAllOp
  | isStaleOp (now maxAge : ℚ)

/-- Return values of cache operations. -/
inductive CacheRet where
  | unitR
  | snapR (d : Dict HostEntry) (t : Option ℚ)
  | boolR (b : Bool)
deriving DecidableEq

/-- Run one cache operation. -/
def cacheRun (s : CacheState) : CacheOp → CacheState × CacheRet
  | .replaceAllOp d tStamp tUpd => (replace_all s d tStamp tUpd, .unitR)
  | .getAllOp => (s, .snapR (get_all s).1 (get_all s).2)
  | .isStaleOp now maxAge => (s, .boolR (is_stale s now maxAge))

/-- The downstream `requests.post` outcome in `send_wol`. -/
inductive PostOutcome where
  | exc (msg : String)
  | resp (code : Nat)
deriving DecidableEq

/-- The JSON body and HTTP status `send_wol` answers with. -/
structure WolResp where
  success : Bool
  msgText : Option String
  errText : Option String
  status : Nat
deriving DecidableEq

/-- `send_wol` (rewol.py): verify the caller's password against the
aggregator's own credential and return 401 before any downstream request;
otherwise relay to the backend and map its status code.  The second
component records whether the downstream `requests.post` was issued. -/
def send_wol (hostName backendAddress backendPassword inputPassword : Option String)
    (servicePassword serviceSalt : String) (post : PostOutcome) : WolResp × Bool :=
  if verify_password inputPassword (some servicePassword) (some serviceSalt) then
    match post with
    | .exc m => (⟨false, none, some ("Connection error: " ++ m), 500⟩, true)
    | .resp code =>
      if code == 201 then (⟨true, some "WOL command sent successfully", none, 200⟩, true)
      else if code == 401 then (⟨false, none, some "Backend authentication failed", 401⟩, true)
      else if code == 404 then (⟨false, none, some "Host not found on backend", 404⟩, true)
      else (⟨false, none, some ("Backend error: " ++ toString code), 500⟩, true)
  else
    (⟨false, none, some "Invalid password", 401⟩, false)

/-- One `replace_all` call as issued by the monitor thread: the new mapping
and the wall-clock values of the two `datetime.now()` calls inside the
critical section. -/
structure Call where
  data : Dict HostEntry
  tStamp : ℚ
  tUpd : ℚ
deriving DecidableEq

/-- The memory shared between the monitor thread and a reader: the two fields
`self.cache` and `self.last_updated`, plus who holds `self.lock`
(`some true` = writer, `some false` = reader, `none` = free). -/
structure MemState where
  cache : Dict HostEntry
  last : Option ℚ
  lockHeld : Option Bool
deriving DecidableEq

/-- Writer thread position: outside the critical section, or inside it about
to write `self.cache`, about to write `self.last_updated`, or about to
release the lock. -/
inductive WPh where
  | ready
  | preC
  | preU
  | preUnl
deriving DecidableEq

/-- Reader thread position in `get_all`: before the lock, about to read
`self.cache`, about to read `self.last_updated` (carrying the cache copy),
about to release (carrying both), or finished (carrying the returned pair). -/
inductive RPh where
  | ready
  | preC
  | preU (c : Dict HostEntry)
  | preUnl (c : Dict HostEntry) (u : Option ℚ)
  | done (c : Dict HostEntry) (u : Option ℚ)
deriving DecidableEq

/-- A configuration of the two-thread system: shared memory, the writer's
remaining `replace_all` calls and position, and the reader's position. -/
structure Conf where
  mem : MemState
  wcalls : List Call
  wph : WPh
  rph : RPh
deriving DecidableEq

/-- One step of the writer thread.  Acquiring a held lock blocks (the
configuration is unchanged); each primitive write happens under the lock,
mirroring the `with self.lock` block of `replace_all`. -/
def stepW (k : Conf) : Conf :=
  match k.wph, k.wcalls with
  | .ready, [] => k
  | .ready, _ :: _ =>
    if k.mem.lockHeld = none then
      { k with mem := { k.mem with lockHeld := some true }, wph := .preC }
    else k
  | .preC, c :: _ => { k with mem := { k.mem with cache := stampAll c.tStamp c.data }, wph := .preU }
  | .preU, c :: _ => { k with mem := { k.mem with last := some c.tUpd }, wph := .preUnl }
  | .preUnl, _ :: rest =>
    { k with mem := { k.mem with lockHeld := none }, wph := .ready, wcalls := rest }
  | _, [] => k

/-- One step of the reader thread (`get_all`): lock, read both fields, unlock,
return the pair. -/
def stepR (k : Conf) : Conf :=
  match k.rph with
  | .ready =>
    if k.mem.lockHeld = none then
      { k with mem := { k.mem with lockHeld := some false }, rph := .preC }
    else k
  | .preC => { k with rph := .preU k.mem.cache }
  | .preU c => { k with rph := .preUnl c k.mem.last }
  | .preUnl c u => { k with mem := { k.mem with lockHeld := none }, rph := .done c u }
  | .done _ _ => k

/-- Run an arbitrary interleaving: `true` schedules the writer, `false` the
reader. -/
def runSched (k : Conf) (sched : List Bool) : Conf :=
  sched.foldl (fun k b => if b then stepW k else stepR k) k

/-- Initial configuration: empty cache, no timestamp, lock free, the writer
about to perform the given sequence of `replace_all` calls. -/
def initConf (calls : List Call) : Conf :=
  ⟨⟨[], none, none⟩, calls, .ready, .ready⟩

/-- The (entries, lastUpdated) pair after the first `n` calls have completed:
each call wholesale-replaces both fields. -/
def snapAfter (calls : List Call) (n : Nat) : Dict HostEntry × Option ℚ :=
  (calls.take n).foldl (fun _ c => (stampAll c.tStamp c.data, some c.tUpd)) ([], none)

/-- The contribution of the last backend in `ps` (in configuration order)
that contributes a binding for key `k`, if any. -/
def lastHit (k : String) : List (Backend × FetchResult) → Option HostEntry
  | [] => none
  | p :: ps =>
    match lastHit k ps with
    | some v => some v
    | none => lastLook k (contrib p.1 p.2)

/-- Does the writer hold the lock in this phase? -/
def wHolds : WPh → Bool
  | .ready => false
  | _ => true

/-- Does the reader hold the lock in this phase? -/
def rHolds : RPh → Bool
  | .ready => false
  | .done _ _ => false
  | _ => true

/-- Writer-side memory invariant: outside the critical section, or before the
first write of the current call, both shared fields form a committed
snapshot; between the two writes the cache already holds the new data while
the timestamp still holds the committed one; after both writes they form the
next snapshot. -/
def WInv (calls : List Call) (n : Nat) (k : Conf) : Prop :=
  match k.wph with
  | .ready => (k.mem.cache, k.mem.last) = snapAfter calls n
  | .preC =>
    match k.wcalls with
    | _ :: _ => (k.mem.cache, k.mem.last) = snapAfter calls n
    | [] => False
  | .preU =>
    match k.wcalls with
    | c :: _ => k.mem.cache = stampAll c.tStamp c.data ∧ k.mem.last = (snapAfter calls n).2
    | [] => False
  | .preUnl =>
    match k.wcalls with
    | c :: _ => k.mem.cache = stampAll c.tStamp c.data ∧ k.mem.last = some c.tUpd
    | [] => False

/-- Reader-side invariant: while the reader is inside its critical section
the writer is outside of its own, and the values it has copied agree with the
shared fields; once done, the returned pair is some committed snapshot. -/
def RInv (calls : List Call) (k : Conf) : Prop :=
  match k.rph with
  | .ready => True
  | .preC => wHolds k.wph = false
  | .preU c => wHolds k.wph = false ∧ c = k.mem.cache
  | .preUnl c u => wHolds k.wph = false ∧ c = k.mem.cache ∧ u = k.mem.last
  | .done c u => ∃ m, m ≤ calls.length ∧ (c, u) = snapAfter calls m

/-- The full system invariant: some prefix of `n` calls has committed, the
writer's remaining work is the matching suffix, the lock is held by exactly
the thread whose phase says so, and both thread invariants hold. -/
def Inv (calls : List Call) (k : Conf) : Prop :=
  ∃ n, n ≤ calls.length ∧ k.wcalls = calls.drop n ∧
    k.mem.lockHeld =
      (if wHolds k.wph then some true else if rHolds k.rph then some false else none) ∧
    (wHolds k.wph = true → rHolds k.rph = false) ∧
    WInv calls n k ∧ RInv calls k

end Rewol

namespace Rewol

theorem dget?_nil {α : Type} (k : String) : dget? k ([] : Dict α) = none := rfl

theorem dget?_cons {α : Type} (k : String) (p : String × α) (d : Dict α) :
    dget? k (p :: d) = if p.1 == k then some p.2 else dget? k d := by
  by_cases h : p.1 = k
  · simp [dget?, List.find?, h]
  · simp only [dget?, List.find?]
    rw [show (p.1 == k) = false by simp [h]]
    simp

theorem dget?_eq_none {α : Type} (k : String) (d : Dict α)
    (h : d.any (fun p => p.1 == k) = false) : dget? k d = none := by
  induction d with
  | nil => rfl
  | cons p d ih =>
    rw [List.any_cons] at h
    obtain ⟨h1, h2⟩ := Bool.or_eq_false_iff.mp h
    rw [dget?_cons, h1]
    simpa using ih h2

theorem dget?_append {α : Type} (k : String) (d e : Dict α) :
    dget? k (d ++ e) =
      match dget? k d with
      | some v => some v
      | none => dget? k e := by
  induction d with
  | nil => simp [dget?_nil]
  | cons p d ih =>
    rw [List.cons_append, dget?_cons, dget?_cons]
    cases hb : (p.1 == k) with
    | true => simp
    | false => simpa using ih

theorem dget?_markMap_self {α : Type} (k : String) (v : α) (d : Dict α)
    (h : d.any (fun p => p.1 == k) = true) :
    dget? k (d.map (fun p => if p.1 == k then (k, v) else p)) = some v := by
  induction d with
  | nil => simp at h
  | cons p d ih =>
    rw [List.any_cons] at h
    by_cases hp : p.1 = k
    · rw [List.map_cons, show (if (p.1 == k) = true then (k, v) else p) = (k, v) by simp [hp]]
      rw [dget?_cons]
      simp
    · have hpb : (p.1 == k) = false := by simp [hp]
      rw [List.map_cons, show (if (p.1 == k) = true then (k, v) else p) = p by simp [hpb]]
      rw [dget?_cons, hpb]
      rw [hpb, Bool.false_or] at h
      simpa using ih h

theorem dget?_markMap_ne {α : Type} (k kq : String) (v : α) (d : Dict α)
    (h : kq ≠ k) :
    dget? kq (d.map (fun p => if p.1 == k then (k, v) else p)) = dget? kq d := by
  have hkkq : (k == kq) = false := by
    simp only [beq_eq_false_iff_ne, ne_eq]
    exact fun e => h e.symm
  induction d with
  | nil => rfl
  | cons p d ih =>
    by_cases hp : p.1 = k
    · rw [List.map_cons, show (if (p.1 == k) = true then (k, v) else p) = (k, v) by simp [hp]]
      rw [dget?_cons, dget?_cons, hkkq, show (p.1 == kq) = false by rw [hp]; exact hkkq]
      exact ih
    · rw [List.map_cons, show (if (p.1 == k) = true then (k, v) else p) = p by simp [hp]]
      rw [dget?_cons, dget?_cons]
      cases hpq : (p.1 == kq) with
      | true => simp
      | false => simpa using ih

theorem dget?_dinsert {α : Type} (k : String) (v : α) (d : Dict α) :
    dget? k (dinsert k v d) = some v := by
  unfold dinsert
  by_cases ha : d.any (fun p => p.1 == k) = true
  · rw [if_pos ha]
    exact dget?_markMap_self k v d ha
  · have hf : d.any (fun p => p.1 == k) = false := by
      cases hb : d.any (fun p => p.1 == k)
      · rfl
      · exact absurd hb ha
    rw [if_neg ha, dget?_append, dget?_eq_none k d hf]
    simp [dget?_cons]

theorem dget?_dinsert_ne {α : Type} (k kq : String) (v : α) (d : Dict α)
    (h : kq ≠ k) : dget? kq (dinsert k v d) = dget? kq d := by
  have hkkq : (k == kq) = false := by
    simp only [beq_eq_false_iff_ne, ne_eq]
    exact fun e => h e.symm
  unfold dinsert
  by_cases ha : d.any (fun p => p.1 == k) = true
  · rw [if_pos ha]
    exact dget?_markMap_ne k kq v d h
  · rw [if_neg ha, dget?_append]
    rw [show dget? kq [(k, v)] = none by rw [dget?_cons, hkkq]; rfl]
    cases dget? kq d <;> rfl

theorem dget?_dupdate {α : Type} (k : String) (d s : Dict α) :
    dget? k (dupdate d s) =
      match lastLook k s with
      | some v => some v
      | none => dget? k d := by
  induction s generalizing d with
  | nil => rfl
  | cons p s ih =>
    show dget? k (dupdate (dinsert p.1 p.2 d) s) = _
    rw [ih]
    by_cases hp : p.1 = k
    · cases hl : lastLook k s with
      | some v => simp [lastLook, hl]
      | none =>
        have hq : dinsert p.1 p.2 d = dinsert k p.2 d := by rw [hp]
        simp [lastLook, hl, hp, hq, dget?_dinsert]
    · cases hl : lastLook k s with
      | some v => simp [lastLook, hl]
      | none =>
        have hne : k ≠ p.1 := fun e => hp e.symm
        simp [lastLook, hl, show (p.1 == k) = false by simp [hp],
          dget?_dinsert_ne p.1 k p.2 d hne]

theorem cycleStep_eq (d : Dict HostEntry) (p : Backend × FetchResult) :
    cycleStep d p = dupdate d (contrib p.1 p.2) := by
  unfold cycleStep applyStatus contrib
  cases hc : check_proxy_status p.1 p.2 with
  | none => rfl
  | some s =>
    by_cases he : s.isEmpty
    · simp [he]; rfl
    · simp [he]

theorem dget?_foldl_cycle (k : String) (ps : List (Backend × FetchResult)) (d : Dict HostEntry) :
    dget? k (ps.foldl cycleStep d) =
      match lastHit k ps with
      | some v => some v
      | none => dget? k d := by
  induction ps generalizing d with
  | nil => rfl
  | cons p ps ih =>
    rw [List.foldl_cons, ih, cycleStep_eq, dget?_dupdate]
    cases hh : lastHit k ps with
    | some v => simp [lastHit, hh]
    | none => cases hl : lastLook k (contrib p.1 p.2) <;> simp [lastHit, hh, hl]

theorem dget?_runCycle (k : String) (ps : List (Backend × FetchResult)) :
    dget? k (runCycle ps) =
      match lastHit k ps with
      | some v => some v
      | none => none := by
  rw [runCycle, dget?_foldl_cycle, dget?_nil]

theorem lastHit_append (k : String) (xs ys : List (Backend × FetchResult)) :
    lastHit k (xs ++ ys) =
      match lastHit k ys with
      | some v => some v
      | none => lastHit k xs := by
  induction xs with
  | nil =>
    show lastHit k ys = _
    cases lastHit k ys <;> rfl
  | cons p xs ih =>
    have hcons : ∀ (zs : List (Backend × FetchResult)),
        lastHit k (p :: zs) =
          match lastHit k zs with
          | some v => some v
          | none => lastLook k (contrib p.1 p.2) := fun _ => rfl
    rw [List.cons_append, hcons, hcons, ih]
    cases hys : lastHit k ys <;> cases hxs : lastHit k xs <;> simp

theorem lastHit_none (k : String) (ps : List (Backend × FetchResult))
    (h : ∀ p ∈ ps, lastLook k (contrib p.1 p.2) = none) : lastHit k ps = none := by
  induction ps with
  | nil => rfl
  | cons p ps ih =>
    have h1 := h p (List.mem_cons_self p ps)
    have h2 := ih (fun q hq => h q (List.mem_cons_of_mem p hq))
    simp [lastHit, h2, h1]

theorem not_mem_keys_of_not_any {α : Type} (k : String) (d : Dict α)
    (h : d.any (fun p => p.1 == k) = false) : k ∉ d.map Prod.fst := by
  intro hm
  obtain ⟨p, hp, hpk⟩ := List.mem_map.mp hm
  have : d.any (fun p => p.1 == k) = true :=
    List.any_eq_true.mpr ⟨p, hp, by simp [hpk]⟩
  rw [this] at h
  cases h

theorem keysND_dinsert {α : Type} (k : String) (v : α) (d : Dict α)
    (h : keysND d) : keysND (dinsert k v d) := by
  unfold dinsert
  by_cases ha : d.any (fun p => p.1 == k) = true
  · rw [if_pos ha]
    unfold keysND
    have : (d.map (fun p => if p.1 == k then (k, v) else p)).map Prod.fst = d.map Prod.fst := by
      rw [List.map_map]
      apply List.map_congr_left
      intro p _
      by_cases hp : p.1 = k
      · simp [hp]
      · simp [hp]
    rw [this]
    exact h
  · have hf : d.any (fun p => p.1 == k) = false := by
      cases hb : d.any (fun p => p.1 == k)
      · rfl
      · exact absurd hb ha
    rw [if_neg ha]
    unfold keysND
    rw [List.map_append]
    rw [List.nodup_append]
    refine ⟨h, List.nodup_singleton k, ?_⟩
    intro x hx hx2
    simp at hx2
    rw [hx2] at hx
    exact not_mem_keys_of_not_any k d hf hx

theorem keysND_dupdate {α : Type} (d s : Dict α) (h : keysND d) : keysND (dupdate d s) := by
  induction s generalizing d with
  | nil => exact h
  | cons p s ih =>
    show keysND (dupdate (dinsert p.1 p.2 d) s)
    exact ih _ (keysND_dinsert p.1 p.2 d h)

theorem keysND_foldl_cycle (ps : List (Backend × FetchResult)) (d : Dict HostEntry)
    (h : keysND d) : keysND (ps.foldl cycleStep d) := by
  induction ps generalizing d with
  | nil => exact h
  | cons p ps ih =>
    rw [List.foldl_cons, cycleStep_eq]
    exact ih _ (keysND_dupdate _ _ h)

theorem keysND_runCycle (ps : List (Backend × FetchResult)) : keysND (runCycle ps) :=
  keysND_foldl_cycle ps [] List.nodup_nil

theorem countKey_zero {α : Type} (k : String) (d : Dict α)
    (h : k ∉ d.map Prod.fst) : countKey k d = 0 := by
  induction d with
  | nil => rfl
  | cons p d ih =>
    have hp : (p.1 == k) = false := by
      simp only [beq_eq_false_iff_ne, ne_eq]
      intro e
      exact h (List.mem_map.mpr ⟨p, List.mem_cons_self p d, e⟩)
    unfold countKey
    rw [List.filter_cons, hp]
    simp only [Bool.false_eq_true, if_false]
    exact ih (fun hm => h (List.mem_cons_of_mem _ hm))

theorem countKey_one {α : Type} (k : String) (d : Dict α) (v : α)
    (hnd : keysND d) (hget : dget? k d = some v) : countKey k d = 1 := by
  induction d with
  | nil => cases hget
  | cons p d ih =>
    unfold keysND at hnd
    rw [List.map_cons, List.nodup_cons] at hnd
    rw [dget?_cons] at hget
    cases hb : (p.1 == k) with
    | true =>
      have hk : p.1 = k := by simpa using hb
      unfold countKey
      rw [List.filter_cons, hb]
      simp only [if_true]
      rw [List.length_cons]
      have : countKey k d = 0 := countKey_zero k d (by rw [← hk]; exact hnd.1)
      unfold countKey at this
      rw [this]
    | false =>
      rw [hb] at hget
      simp only [Bool.false_eq_true, if_false] at hget
      unfold countKey
      rw [List.filter_cons, hb]
      simp only [Bool.false_eq_true, if_false]
      exact ih hnd.2 hget

theorem word32Bytes_length (w : Nat) : (word32Bytes w).length = 4 := rfl

theorem word32Bytes_lt (w : Nat) : ∀ x ∈ word32Bytes w, x < 256 := by
  intro x hx
  simp [word32Bytes] at hx
  rcases hx with h | h | h | h <;> subst h <;> exact Nat.mod_lt _ (by norm_num)

theorem sha256_length (m : List Nat) : (sha256 m).length = 32 := by
  simp [sha256, word32Bytes]

theorem sha256_lt (m : List Nat) : ∀ x ∈ sha256 m, x < 256 := by
  intro x hx
  simp only [sha256, List.mem_append] at hx
  rcases hx with ((((((h | h) | h) | h) | h) | h) | h) | h <;> exact word32Bytes_lt _ x h

theorem hmacSha256_eq_sha256 (key msg : List Nat) :
    ∃ t, hmacSha256 key msg = sha256 t := ⟨_, rfl⟩

theorem hmacSha256_length (key msg : List Nat) : (hmacSha256 key msg).length = 32 := by
  obtain ⟨t, ht⟩ := hmacSha256_eq_sha256 key msg
  rw [ht, sha256_length]

theorem hmacSha256_lt (key msg : List Nat) : ∀ x ∈ hmacSha256 key msg, x < 256 := by
  obtain ⟨t, ht⟩ := hmacSha256_eq_sha256 key msg
  rw [ht]
  exact sha256_lt t

theorem listXor_length (a b : List Nat) : (listXor a b).length = min a.length b.length :=
  List.length_zipWith _ _ _

theorem listXor_lt (a b : List Nat) (ha : ∀ x ∈ a, x < 256) (hb : ∀ x ∈ b, x < 256) :
    ∀ x ∈ listXor a b, x < 256 := by
  induction a generalizing b with
  | nil => intro x hx; cases hx
  | cons c a ih =>
    intro x hx
    cases b with
    | nil => cases hx
    | cons e b =>
      rcases List.mem_cons.mp hx with h | h
      · subst h
        have h1 : c < 2 ^ 8 := ha c (List.mem_cons_self c a)
        have h2 : e < 2 ^ 8 := hb e (List.mem_cons_self e b)
        calc c ^^^ e < 2 ^ 8 := Nat.xor_lt_two_pow h1 h2
          _ = 256 := by norm_num
      · exact ih b (fun y hy => ha y (List.mem_cons_of_mem _ hy))
          (fun y hy => hb y (List.mem_cons_of_mem _ hy)) x h

theorem pbkdf2_length_lt (pw salt : List Nat) (iters : Nat) :
    (pbkdf2HmacSha256 pw salt iters).length = 32 ∧
      ∀ x ∈ pbkdf2HmacSha256 pw salt iters, x < 256 := by
  unfold pbkdf2HmacSha256
  have main : ∀ (l : List Nat) (st : List Nat × List Nat),
      st.1.length = 32 → (∀ x ∈ st.1, x < 256) →
      ((l.foldl (fun st _ =>
          (listXor st.1 (hmacSha256 pw st.2), hmacSha256 pw st.2)) st).1.length = 32 ∧
        ∀ x ∈ (l.foldl (fun st _ =>
          (listXor st.1 (hmacSha256 pw st.2), hmacSha256 pw st.2)) st).1, x < 256) := by
    intro l
    induction l with
    | nil => intro st h1 h2; exact ⟨h1, h2⟩
    | cons a l ih =>
      intro st h1 h2
      rw [List.foldl_cons]
      apply ih
      · rw [listXor_length, h1, hmacSha256_length]
        simp
      · exact listXor_lt _ _ h2 (hmacSha256_lt pw st.2)
  exact main _ _ (hmacSha256_length _ _) (hmacSha256_lt _ _)

theorem b64encodeCore_ne_nil (l : List Nat) (h : l ≠ []) : b64encodeCore l ≠ [] := by
  match l with
  | [] => exact absurd rfl h
  | [b1] => simp [b64encodeCore]
  | [b1, b2] => simp [b64encodeCore]
  | b1 :: b2 :: b3 :: rest => simp [b64encodeCore]

theorem b64encode_ne_empty (l : List Nat) (h : l ≠ []) : (b64encode l == "") = false := by
  simp only [beq_eq_false_iff_ne, ne_eq]
  intro hc
  have : b64encodeCore l = [] := by
    have := congrArg String.data hc
    simpa [b64encode] using this
  exact b64encodeCore_ne_nil l h this

theorem dget?_stampAll (k : String) (t : ℚ) (d : Dict HostEntry) :
    dget? k (stampAll t d) = (dget? k d).map (stampEntry t) := by
  induction d with
  | nil => rfl
  | cons p d ih =>
    show dget? k ((p.1, stampEntry t p.2) :: stampAll t d) = _
    rw [dget?_cons, dget?_cons]
    cases hb : (p.1 == k) with
    | true => simp
    | false => simpa using ih

theorem dget?_runCycle_mid (pre post : List (Backend × FetchResult)) (b : Backend)
    (f : FetchResult) (n : String) (v : HostEntry)
    (hv : lastLook n (contrib b f) = some v)
    (hpost : ∀ p ∈ post, lastLook n (contrib p.1 p.2) = none) :
    dget? n (runCycle (pre ++ (b, f) :: post)) = some v := by
  rw [dget?_runCycle, lastHit_append]
  have h2 : lastHit n post = none := lastHit_none n post hpost
  have h1 : lastHit n ((b, f) :: post) = some v := by
    simp [lastHit, h2, hv]
  rw [h1]

theorem check_proxy_statusE_ok (b : Backend) (f : FetchResult) :
    check_proxy_statusE b f = .ok (check_proxy_status b f) := by
  cases f with
  | exc m => rfl
  | resp code text =>
    cases hc : (code == 200) <;>
      simp [check_proxy_statusE, checkBodyE, check_proxy_status, hc]

theorem runCycleE_ok (ps : List (Backend × FetchResult)) :
    runCycleE ps = .ok (runCycle ps) := by
  unfold runCycleE runCycle
  have main : ∀ (l : List (Backend × FetchResult)) (d : Dict HostEntry),
      l.foldlM (fun d p => (check_proxy_statusE p.1 p.2).map (applyStatus d p.1)) d =
        .ok (l.foldl cycleStep d) := by
    intro l
    induction l with
    | nil => intro d; rfl
    | cons p l ih =>
      intro d
      rw [List.foldlM_cons, check_proxy_statusE_ok]
      show (l.foldlM _ (applyStatus d p.1 (check_proxy_status p.1 p.2))) = _
      rw [ih, List.foldl_cons]
      rfl
  exact main ps []

theorem lastHit_cons_none (n : String) (b : Backend) (f : FetchResult)
    (post : List (Backend × FetchResult)) (h : lastLook n (contrib b f) = none) :
    lastHit n ((b, f) :: post) = lastHit n post := by
  cases hp : lastHit n post <;> simp [lastHit, hp, h]

/-- C1: the spec says each backend fetch is retried up to `maxRetries` times
(default 3) before the backend is treated as down, but
`BackgroundMonitorThread` in the source has no retry logic at all: its
constructor takes no retry count (it only sets `running = False` and
`monitor_interval = 5`), and `_check_proxy_status` issues exactly one
`requests.get`, treating the backend as down after that single failed
attempt.  The repository's own tests (`test_retry_logic.py`,
`test_retry_simple.py`) construct the monitor with a `max_retries` argument
and assert `mock_get.call_count == 2` for `max_retries = 2`, so the code
contradicts its own tests. -/
theorem c1_single_fetch_attempt (b : Backend) (a : FetchResult)
    (rest : List FetchResult) (m : String) (bs : List Backend) :
    (check_proxy_statusT b (a :: rest)).2 = 1 ∧
    check_proxy_statusT b (.exc m :: rest) = (none, 1) ∧
    (monitorInit bs).monitor_interval = 5 ∧
    (monitorInit bs).running = false :=
  ⟨rfl, rfl, rfl, rfl⟩

/-- C4: `is_stale` is true whenever `last_updated` is absent (hence before any
`replace_all`, for every threshold and clock); it is false at the instant of a
`replace_all` for every threshold `s ≥ 0`; and with `last_updated = t` it is
true exactly when `now - t` strictly exceeds the threshold. -/
theorem c4_staleness (s : CacheState) (d : Dict HostEntry)
    (tStamp tUpd now maxAge t : ℚ) :
    is_stale ⟨s.cache, none⟩ now maxAge = true ∧
    (0 ≤ maxAge → is_stale (replace_all s d tStamp tUpd) tUpd maxAge = false) ∧
    (s.last_updated = some t → (is_stale s now maxAge = true ↔ now - t > maxAge)) := by
  refine ⟨rfl, ?_, ?_⟩
  · intro h
    simp [replace_all, is_stale]
    linarith
  · intro h
    simp [is_stale, h]

/-- C4 witness: concrete staleness checks derived from `c4_staleness`. -/
theorem c4_staleness_witness :
    is_stale ⟨[], none⟩ 5 3 = true ∧
    is_stale (replace_all ⟨[], none⟩ [] 2 2) 2 0 = false ∧
    (is_stale ⟨[], some 1⟩ 5 3 = true ↔ (5 : ℚ) - 1 > 3) :=
  ⟨(c4_staleness ⟨[], none⟩ [] 0 0 5 3 0).1,
   (c4_staleness ⟨[], none⟩ [] 2 2 9 0 0).2.1 (by norm_num),
   (c4_staleness ⟨[], some 1⟩ [] 0 0 5 3 1).2.2 rfl⟩

/-- C10: reading operations (`get_all`, `is_stale`) leave the cache state
untouched and return exactly the stored mapping and timestamp; `replace_all`
builds its result from the incoming data only (the previous state is
irrelevant, so no cached record is consulted or modified), and its per-record
stamp sets only `last_checked`, leaving every other field of every record
unchanged.  (The stamp mutates the incoming, not-yet-cached records; records
already installed are never touched again.) -/
theorem c10_no_record_mutation (s s2 : CacheState) (d : Dict HostEntry)
    (tStamp tUpd now maxAge : ℚ) (v : HostEntry) (k : String) :
    (cacheRun s .getAllOp).1 = s ∧
    (cacheRun s (.isStaleOp now maxAge)).1 = s ∧
    (cacheRun s .getAllOp).2 = .snapR s.cache s.last_updated ∧
    (cacheRun s (.replaceAllOp d tStamp tUpd)).1 =
      (cacheRun s2 (.replaceAllOp d tStamp tUpd)).1 ∧
    (cacheRun s (.replaceAllOp d tStamp tUpd)).1.cache = stampAll tStamp d ∧
    dget? k (stampAll tStamp d) = (dget? k d).map (stampEntry tStamp) ∧
    (stampEntry tStamp v).status = v.status ∧
    (stampEntry tStamp v).name = v.name ∧
    (stampEntry tStamp v).backend_name = v.backend_name ∧
    (stampEntry tStamp v).backend_address = v.backend_address ∧
    (stampEntry tStamp v).backend_password = v.backend_password ∧
    (stampEntry tStamp v).is_proxy_down = v.is_proxy_down :=
  ⟨rfl, rfl, rfl, rfl, rfl, dget?_stampAll k tStamp d, rfl, rfl, rfl, rfl, rfl, rfl⟩

/-- C7: when the caller's password fails verification against the service
credential, `send_wol` answers HTTP 401 with `success = False` and issues no
downstream request to any backend. -/
theorem c7_unauthorized_no_forward (hn ba bp ip : Option String) (sp ss : String)
    (post : PostOutcome)
    (h : verify_password ip (some sp) (some ss) = false) :
    (send_wol hn ba bp ip sp ss post).1.status = 401 ∧
    (send_wol hn ba bp ip sp ss post).1.success = false ∧
    (send_wol hn ba bp ip sp ss post).2 = false := by
  unfold send_wol
  rw [h]
  exact ⟨rfl, rfl, rfl⟩

/-- C7 witness: an absent caller password fails verification, and the
concrete request is answered 401 without a downstream call even though the
backend would have answered 201. -/
theorem c7_unauthorized_witness :
    (send_wol (some "h1") (some "10.0.0.1:11000") (some "bp") none "svc-hash" ""
        (.resp 201)).1.status = 401 ∧
    (send_wol (some "h1") (some "10.0.0.1:11000") (some "bp") none "svc-hash" ""
        (.resp 201)).1.success = false ∧
    (send_wol (some "h1") (some "10.0.0.1:11000") (some "bp") none "svc-hash" ""
        (.resp 201)).2 = false :=
  c7_unauthorized_no_forward (some "h1") (some "10.0.0.1:11000") (some "bp") none
    "svc-hash" "" (.resp 201) rfl

/-- C8: within one poll cycle the merged mapping is last-write-wins in
configuration order and collisions are never an error: if the backend at some
position contributes a binding for host name `n` and no later backend
contributes one, the installed entry for `n` is exactly that backend's
binding (with its provenance fields), regardless of what earlier backends
reported. -/
theorem c8_last_write_wins (pre post : List (Backend × FetchResult)) (b : Backend)
    (f : FetchResult) (n : String) (v : HostEntry)
    (hv : lastLook n (contrib b f) = some v)
    (hpost : ∀ p ∈ post, lastLook n (contrib p.1 p.2) = none) :
    dget? n (runCycle (pre ++ (b, f) :: post)) = some v :=
  dget?_runCycle_mid pre post b f n v hv hpost

/-- C8 witness: backends `A` then `B` both report host `h1`; the installed
`h1` entry carries `B`'s provenance fields and status. -/
theorem c8_last_write_wins_witness :
    dget? "h1" (runCycle
        [(⟨"A", "10.0.0.1:11000", "pwA"⟩, .resp 200 "rewol_host_up\x7bhost=\"h1\"\x7d 0\n"),
         (⟨"B", "10.0.0.2:11000", "pwB"⟩, .resp 200 "rewol_host_up\x7bhost=\"h1\"\x7d 1\n")]) =
      some ⟨some 1, some "h1", some "B", some "10.0.0.2:11000", some "pwB", some false, none⟩ :=
  c8_last_write_wins
    [(⟨"A", "10.0.0.1:11000", "pwA"⟩, .resp 200 "rewol_host_up\x7bhost=\"h1\"\x7d 0\n")] []
    ⟨"B", "10.0.0.2:11000", "pwB"⟩ (.resp 200 "rewol_host_up\x7bhost=\"h1\"\x7d 1\n")
    "h1" ⟨some 1, some "h1", some "B", some "10.0.0.2:11000", some "pwB", some false, none⟩
    (by decide) (fun p hp => absurd hp (List.not_mem_nil p))

/-- C2 (amended): if a configured backend's status fetch fails (transport
exception or non-200), and no later backend in configuration order
contributes a binding for the name `"<backend-name> (proxy down)"`, then the
mapping installed at the end of the cycle contains exactly one entry under
that name, namely the synthesized placeholder with `status = 0` (not
reachable) and `is_proxy_down = True`.  The proviso is forced by
last-write-wins merging: a later backend reporting a host with that exact
name overwrites the placeholder (see the counterexample). -/
theorem c2_down_synthesis (pre post : List (Backend × FetchResult)) (b : Backend)
    (f : FetchResult)
    (hfail : check_proxy_status b f = none)
    (hpost : ∀ p ∈ post, lastLook (downName b) (contrib p.1 p.2) = none) :
    dget? (downName b) (runCycle (pre ++ (b, f) :: post)) = some (downEntry b) ∧
    countKey (downName b) (runCycle (pre ++ (b, f) :: post)) = 1 ∧
    (downEntry b).status = some 0 ∧
    (downEntry b).is_proxy_down = some true ∧
    (downEntry b).name = some (downName b) := by
  have hc : contrib b f = [(downName b, downEntry b)] := by
    unfold contrib
    rw [hfail]
  have hlook : lastLook (downName b) (contrib b f) = some (downEntry b) := by
    rw [hc]
    simp [lastLook]
  have hget := dget?_runCycle_mid pre post b f (downName b) (downEntry b) hlook hpost
  exact ⟨hget, countKey_one _ _ _ (keysND_runCycle _) hget, rfl, rfl, rfl⟩

/-- C2 witness: a lone backend `B` whose fetch raises a transport exception
yields exactly the synthesized `"B (proxy down)"` entry. -/
theorem c2_down_synthesis_witness :
    dget? "B (proxy down)" (runCycle [(⟨"B", "10.0.0.1:11000", "pw1"⟩, .exc "refused")]) =
      some (downEntry ⟨"B", "10.0.0.1:11000", "pw1"⟩) ∧
    countKey "B (proxy down)" (runCycle [(⟨"B", "10.0.0.1:11000", "pw1"⟩, .exc "refused")]) = 1 := by
  have h := c2_down_synthesis [] [] ⟨"B", "10.0.0.1:11000", "pw1"⟩ (.exc "refused") rfl
    (fun p hp => absurd hp (List.not_mem_nil p))
  exact ⟨h.1, h.2.1⟩

/-- C2 counterexample: the claim as stated fails on the code.  Backend `B`
fails all its attempts, but a later backend `C` reports a host literally
named `"B (proxy down)"`; last-write-wins merging overwrites the synthesized
placeholder, so the installed snapshot's only `"B (proxy down)"` entry has
`is_proxy_down = False` and `status = 1` — there is no entry for `B` marked
down, and `B` contributes no visible row. -/
theorem c2_down_synthesis_counterexample :
    check_proxy_status ⟨"B", "10.0.0.1:11000", "pw1"⟩ (.exc "connection refused") = none ∧
    (dget? "B (proxy down)" (runCycle
        [(⟨"B", "10.0.0.1:11000", "pw1"⟩, .exc "connection refused"),
         (⟨"C", "10.0.0.2:11000", "pw2"⟩,
          .resp 200 "rewol_host_up\x7bhost=\"B (proxy down)\"\x7d 1\n")])).map
      (fun v => (v.is_proxy_down, v.status, v.backend_name)) =
      some (some false, some 1, some "C") := by
  exact ⟨rfl, by decide⟩

/-- C9: one full poll cycle never raises an uncaught exception — for every
backend list and every transport behaviour (exceptions, any status code, any
response body) the loop body completes and produces the merged mapping
(`runCycleE` always returns `ok`); and per-backend failures are isolated: for
any host name to which a given backend contributes nothing under either
transport outcome, changing that backend's outcome does not change the
installed entry for that name. -/
theorem c9_cycle_total_isolated (ps pre post : List (Backend × FetchResult))
    (b : Backend) (f f2 : FetchResult) (n : String)
    (h1 : lastLook n (contrib b f) = none)
    (h2 : lastLook n (contrib b f2) = none) :
    runCycleE ps = .ok (runCycle ps) ∧
    dget? n (runCycle (pre ++ (b, f) :: post)) =
      dget? n (runCycle (pre ++ (b, f2) :: post)) := by
  refine ⟨runCycleE_ok ps, ?_⟩
  rw [dget?_runCycle, dget?_runCycle, lastHit_append, lastHit_append,
    lastHit_cons_none n b f post h1, lastHit_cons_none n b f2 post h2]

/-- C9 witness: with backend `A` reporting `h1` and backend `B` either
failing or answering 500, the cycle completes and `h1`'s entry is the same
in both cases. -/
theorem c9_cycle_total_isolated_witness :
    runCycleE [(⟨"A", "10.0.0.1:11000", "pwA"⟩, .resp 200 "rewol_host_up\x7bhost=\"h1\"\x7d 1\n"),
               (⟨"B", "10.0.0.2:11000", "pwB"⟩, .exc "timeout")] =
      .ok (runCycle [(⟨"A", "10.0.0.1:11000", "pwA"⟩, .resp 200 "rewol_host_up\x7bhost=\"h1\"\x7d 1\n"),
                     (⟨"B", "10.0.0.2:11000", "pwB"⟩, .exc "timeout")]) ∧
    dget? "h1" (runCycle
        [(⟨"A", "10.0.0.1:11000", "pwA"⟩, .resp 200 "rewol_host_up\x7bhost=\"h1\"\x7d 1\n"),
         (⟨"B", "10.0.0.2:11000", "pwB"⟩, .exc "timeout")]) =
      dget? "h1" (runCycle
        [(⟨"A", "10.0.0.1:11000", "pwA"⟩, .resp 200 "rewol_host_up\x7bhost=\"h1\"\x7d 1\n"),
         (⟨"B", "10.0.0.2:11000", "pwB"⟩, .resp 500 "internal error")]) :=
  c9_cycle_total_isolated
    [(⟨"A", "10.0.0.1:11000", "pwA"⟩, .resp 200 "rewol_host_up\x7bhost=\"h1\"\x7d 1\n"),
     (⟨"B", "10.0.0.2:11000", "pwB"⟩, .exc "timeout")]
    [(⟨"A", "10.0.0.1:11000", "pwA"⟩, .resp 200 "rewol_host_up\x7bhost=\"h1\"\x7d 1\n")] []
    ⟨"B", "10.0.0.2:11000", "pwB"⟩ (.exc "timeout") (.resp 500 "internal error") "h1"
    (by decide) (by decide)

/-- C6 (amended): `verify_password` never lets an exception reach the caller
— every error in the `try` body yields `False`; an absent (`None`) password,
stored hash or salt yields `False`; a salt that fails base64 decoding yields
`False`; an empty stored hash yields `False`.  (The original claim also said
an *empty* password or salt yields `False`; that is not what the code does —
an empty string is hashed normally, see the counterexample.) -/
theorem c6_verify_never_raises (p h s : Option String) (ss pp : String)
    (e : PyExc) (sb : List Nat) :
    (verifyE p h s = .error e → verify_password p h s = false) ∧
    verify_password none h s = false ∧
    verify_password p h none = false ∧
    (b64decodeE ss = .error e → verify_password p h (some ss) = false) ∧
    verify_password (some pp) none s = false ∧
    (b64decodeE ss = .ok sb → verify_password (some pp) (some "") (some ss) = false) := by
  refine ⟨?_, ?_, ?_, ?_, ?_, ?_⟩
  · intro he
    unfold verify_password
    rw [he]
  · cases s with
    | none => rfl
    | some str =>
      cases hb : b64decodeE str with
      | error e2 => simp [verify_password, verifyE, hb]
      | ok sb2 => simp [verify_password, verifyE, hb]
  · rfl
  · intro hb
    simp [verify_password, verifyE, hb]
  · cases s with
    | none => rfl
    | some str =>
      cases hb : b64decodeE str with
      | error e2 => simp [verify_password, verifyE, hb]
      | ok sb2 => simp [verify_password, verifyE, hb]
  · intro hb
    simp only [verify_password, verifyE, hb]
    apply b64encode_ne_empty
    intro hc
    have hlen := (pbkdf2_length_lt (utf8Bytes pp) sb 600000).1
    rw [hc] at hlen
    cases hlen

/-- C6 witness: concrete degenerate inputs all yield `False` (absent
password, absent salt, undecodable salt `"a"`, absent stored hash, empty
stored hash). -/
theorem c6_verify_never_raises_witness :
    verify_password none (some "y") (some "") = false ∧
    verify_password (some "x") (some "y") none = false ∧
    verify_password (some "x") (some "y") (some "a") = false ∧
    verify_password (some "x") none (some "") = false ∧
    verify_password (some "x") (some "") (some "") = false := by
  obtain ⟨-, h2, h3, h4, h5, h6⟩ :=
    c6_verify_never_raises (some "x") (some "y") (some "") "a" "x"
      (.binasciiError "Invalid base64-encoded string") []
  obtain ⟨-, -, -, -, h5b, h6b⟩ :=
    c6_verify_never_raises (some "x") (some "y") (some "") "" "x"
      (.binasciiError "Invalid base64-encoded string") []
  exact ⟨h2, h3, h4 (by decide), h5, h6b (by decide)⟩

/-- C6 counterexample: with an empty (but present) password and an empty
salt, and the stored hash equal to the derivation of the empty password,
`verify_password` returns `True`, so the claim's "an empty password …
returns false" fails on the code. -/
theorem c6_counterexample :
    verify_password (some "")
      (some (b64encode (pbkdf2HmacSha256 (utf8Bytes "") [] 600000))) (some "") = true := by
  simp only [verify_password, verifyE, show b64decodeE "" = .ok [] from by decide]
  exact beq_self_eq_true _

/-- C5 (amended): for every salt that decodes, `hash_password` derives the
base64 of the PBKDF2-HMAC-SHA256 600000-iteration digest, and
`verify(p, hash(p, salt), salt)` is `True`; for any other candidate `q`,
`verify(q, hash(p, salt), salt)` equals the equality of the two derived
(encoded) digests — so a different password is rejected exactly when its
derivation differs.  (It cannot be `False` for *every* `q ≠ p`: the digest
space is finite while passwords are not, see the counterexample.) -/
theorem c5_round_trip (p q salt : String) (sb : List Nat)
    (hdec : b64decodeE salt = .ok sb) :
    hash_passwordE p salt = .ok (b64encode (pbkdf2HmacSha256 (utf8Bytes p) sb 600000)) ∧
    verify_password (some p)
      (some (b64encode (pbkdf2HmacSha256 (utf8Bytes p) sb 600000))) (some salt) = true ∧
    verify_password (some q)
      (some (b64encode (pbkdf2HmacSha256 (utf8Bytes p) sb 600000))) (some salt) =
      (b64encode (pbkdf2HmacSha256 (utf8Bytes q) sb 600000) ==
       b64encode (pbkdf2HmacSha256 (utf8Bytes p) sb 600000)) := by
  refine ⟨?_, ?_, ?_⟩
  · unfold hash_passwordE
    rw [hdec]
  · simp only [verify_password, verifyE, hdec]
    exact beq_self_eq_true _
  · simp only [verify_password, verifyE, hdec]

/-- C5 witness: the round trip at password `"alpha"`, candidate `"beta"` and
the empty (validly decoding) salt. -/
theorem c5_round_trip_witness :
    hash_passwordE "alpha" "" =
      .ok (b64encode (pbkdf2HmacSha256 (utf8Bytes "alpha") [] 600000)) ∧
    verify_password (some "alpha")
      (some (b64encode (pbkdf2HmacSha256 (utf8Bytes "alpha") [] 600000))) (some "") = true ∧
    verify_password (some "beta")
      (some (b64encode (pbkdf2HmacSha256 (utf8Bytes "alpha") [] 600000))) (some "") =
      (b64encode (pbkdf2HmacSha256 (utf8Bytes "beta") [] 600000) ==
       b64encode (pbkdf2HmacSha256 (utf8Bytes "alpha") [] 600000)) :=
  c5_round_trip "alpha" "beta" "" [] (by decide)

theorem pbkdf2_eq_of_hashByteFun_eq (p q : String) (h : hashByteFun p = hashByteFun q) :
    pbkdf2HmacSha256 (utf8Bytes p) [] 600000 = pbkdf2HmacSha256 (utf8Bytes q) [] 600000 := by
  obtain ⟨hlp, hbp⟩ := pbkdf2_length_lt (utf8Bytes p) [] 600000
  obtain ⟨hlq, hbq⟩ := pbkdf2_length_lt (utf8Bytes q) [] 600000
  apply List.ext_getElem (by rw [hlp, hlq])
  intro i h1 h2
  have hi : i < 32 := by rw [hlp] at h1; exact h1
  have hfe := congrFun h ⟨i, hi⟩
  unfold hashByteFun at hfe
  have hv := congrArg Fin.val hfe
  have e1 : ((Fin.ofNat ((pbkdf2HmacSha256 (utf8Bytes p) [] 600000).getD i 0) : Fin 256)).val =
      (pbkdf2HmacSha256 (utf8Bytes p) [] 600000).getD i 0 % 256 := rfl
  have e2 : ((Fin.ofNat ((pbkdf2HmacSha256 (utf8Bytes q) [] 600000).getD i 0) : Fin 256)).val =
      (pbkdf2HmacSha256 (utf8Bytes q) [] 600000).getD i 0 % 256 := rfl
  rw [e1, e2] at hv
  rw [List.getD_eq_getElem _ _ h1, List.getD_eq_getElem _ _ h2] at hv
  rw [Nat.mod_eq_of_lt (hbp _ (List.getElem_mem h1)),
    Nat.mod_eq_of_lt (hbq _ (List.getElem_mem h2))] at hv
  exact hv

/-- C5 counterexample: the claim's second half — for *every* `q ≠ p`,
`verify(q, hash(p, salt), salt)` is `False` — is false for the code: the
derivation maps infinitely many passwords into a 32-byte digest space, so by
the pigeonhole principle two distinct passwords share a derivation under the
empty salt, and for such a pair `verify` returns `True`. -/
theorem c5_round_trip_counterexample :
    ¬ (∀ (p q hsh : String), q ≠ p → hash_passwordE p "" = .ok hsh →
        verify_password (some q) (some hsh) (some "") = false) := by
  intro hclaim
  obtain ⟨p, q, hne, hfe⟩ := Finite.exists_ne_map_eq_of_infinite hashByteFun
  have heq := pbkdf2_eq_of_hashByteFun_eq p q hfe
  have hhash : hash_passwordE p "" =
      .ok (b64encode (pbkdf2HmacSha256 (utf8Bytes p) [] 600000)) := by
    unfold hash_passwordE
    rw [show b64decodeE "" = .ok [] from by decide]
  have hfalse := hclaim p q _ (fun e2 => hne e2.symm) hhash
  have htrue : verify_password (some q)
      (some (b64encode (pbkdf2HmacSha256 (utf8Bytes p) [] 600000))) (some "") = true := by
    simp only [verify_password, verifyE, show b64decodeE "" = .ok [] from by decide]
    rw [heq]
    exact beq_self_eq_true _
  rw [hfalse] at htrue
  cases htrue

theorem snapAfter_zero (calls : List Call) : snapAfter calls 0 = ([], none) := rfl

theorem snapAfter_succ (calls : List Call) (c : Call) (rest : List Call) (n : Nat)
    (h : calls.drop n = c :: rest) :
    snapAfter calls (n + 1) = (stampAll c.tStamp c.data, some c.tUpd) := by
  have hget : calls[n]? = some c := by
    have hd := List.getElem?_drop calls n 0
    rw [h] at hd
    simpa using hd.symm
  unfold snapAfter
  rw [List.take_succ, hget, List.foldl_append]
  rfl

theorem drop_cons_lt (calls : List Call) (c : Call) (rest : List Call) (n : Nat)
    (h : calls.drop n = c :: rest) : n < calls.length := by
  by_contra hc
  push_neg at hc
  rw [List.drop_eq_nil_of_le hc] at h
  cases h

theorem drop_cons_succ (calls : List Call) (c : Call) (rest : List Call) (n : Nat)
    (h : calls.drop n = c :: rest) : calls.drop (n + 1) = rest := by
  have : calls.drop (n + 1) = (calls.drop n).drop 1 := by
    rw [List.drop_drop]
  rw [this, h]
  rfl

theorem wHolds_false (wph : WPh) (h : wHolds wph = false) : wph = .ready := by
  cases wph
  · rfl
  · exact Bool.noConfusion h
  · exact Bool.noConfusion h
  · exact Bool.noConfusion h

theorem inv_init (calls : List Call) : Inv calls (initConf calls) := by
  refine ⟨0, Nat.zero_le _, rfl, rfl, fun h => Bool.noConfusion h, ?_, ?_⟩
  · show ([], none) = snapAfter calls 0
    rfl
  · trivial

theorem stepW_inv (calls : List Call) (k : Conf) (h : Inv calls k) :
    Inv calls (stepW k) := by
  obtain ⟨n, hn, hw, hlock, hmx, hwm, hrm⟩ := h
  obtain ⟨⟨cache, last, lockH⟩, wcalls, wph, rph⟩ := k
  simp only at hw hlock hwm hrm
  cases wph with
  | ready =>
    cases wcalls with
    | nil => exact ⟨n, hn, hw, hlock, hmx, hwm, hrm⟩
    | cons c rest =>
      by_cases hl : lockH = none
      · have hrf : rHolds rph = false := by
          simp only [wHolds] at hlock
          rw [hl] at hlock
          cases hrb : rHolds rph
          · rfl
          · rw [hrb] at hlock
            simp at hlock
        have hstep : stepW ⟨⟨cache, last, lockH⟩, c :: rest, .ready, rph⟩ =
            ⟨⟨cache, last, some true⟩, c :: rest, .preC, rph⟩ := by
          simp [stepW, hl]
        rw [hstep]
        refine ⟨n, hn, hw, rfl, fun _ => hrf, ?_, ?_⟩
        · exact hwm
        · cases rph with
          | ready => trivial
          | done c2 u2 => exact hrm
          | preC => exact Bool.noConfusion hrf
          | preU c2 => exact Bool.noConfusion hrf
          | preUnl c2 u2 => exact Bool.noConfusion hrf
      · have hstep : stepW ⟨⟨cache, last, lockH⟩, c :: rest, .ready, rph⟩ =
            ⟨⟨cache, last, lockH⟩, c :: rest, .ready, rph⟩ := by
          simp [stepW, hl]
        rw [hstep]
        exact ⟨n, hn, hw, hlock, hmx, hwm, hrm⟩
  | preC =>
    cases wcalls with
    | nil => exact hwm.elim
    | cons c rest =>
      have hrf : rHolds rph = false := hmx rfl
      have hwm2 : (cache, last) = snapAfter calls n := hwm
      have hstep : stepW ⟨⟨cache, last, lockH⟩, c :: rest, .preC, rph⟩ =
          ⟨⟨stampAll c.tStamp c.data, last, lockH⟩, c :: rest, .preU, rph⟩ := rfl
      rw [hstep]
      refine ⟨n, hn, hw, hlock, fun _ => hrf, ?_, ?_⟩
      · exact ⟨rfl, congrArg Prod.snd hwm2⟩
      · cases rph with
        | ready => trivial
        | done c2 u2 => exact hrm
        | preC => exact Bool.noConfusion hrf
        | preU c2 => exact Bool.noConfusion hrf
        | preUnl c2 u2 => exact Bool.noConfusion hrf
  | preU =>
    cases wcalls with
    | nil => exact hwm.elim
    | cons c rest =>
      have hrf : rHolds rph = false := hmx rfl
      have hwm2 : cache = stampAll c.tStamp c.data ∧ last = (snapAfter calls n).2 := hwm
      have hstep : stepW ⟨⟨cache, last, lockH⟩, c :: rest, .preU, rph⟩ =
          ⟨⟨cache, some c.tUpd, lockH⟩, c :: rest, .preUnl, rph⟩ := rfl
      rw [hstep]
      refine ⟨n, hn, hw, hlock, fun _ => hrf, ?_, ?_⟩
      · exact ⟨hwm2.1, rfl⟩
      · cases rph with
        | ready => trivial
        | done c2 u2 => exact hrm
        | preC => exact Bool.noConfusion hrf
        | preU c2 => exact Bool.noConfusion hrf
        | preUnl c2 u2 => exact Bool.noConfusion hrf
  | preUnl =>
    cases wcalls with
    | nil => exact hwm.elim
    | cons c rest =>
      have hrf : rHolds rph = false := hmx rfl
      have hwm2 : cache = stampAll c.tStamp c.data ∧ last = some c.tUpd := hwm
      have hdn : calls.drop n = c :: rest := hw.symm
      have hstep : stepW ⟨⟨cache, last, lockH⟩, c :: rest, .preUnl, rph⟩ =
          ⟨⟨cache, last, none⟩, rest, .ready, rph⟩ := rfl
      rw [hstep]
      refine ⟨n + 1, drop_cons_lt calls c rest n hdn, (drop_cons_succ calls c rest n hdn).symm,
        ?_, fun hh => Bool.noConfusion hh, ?_, ?_⟩
      · show (none : Option Bool) =
          if wHolds .ready then some true else if rHolds rph then some false else none
        rw [hrf]
        rfl
      · show (cache, last) = snapAfter calls (n + 1)
        rw [snapAfter_succ calls c rest n hdn, hwm2.1, hwm2.2]
      · cases rph with
        | ready => trivial
        | done c2 u2 => exact hrm
        | preC => exact Bool.noConfusion hrf
        | preU c2 => exact Bool.noConfusion hrf
        | preUnl c2 u2 => exact Bool.noConfusion hrf

theorem stepR_inv (calls : List Call) (k : Conf) (h : Inv calls k) :
    Inv calls (stepR k) := by
  obtain ⟨n, hn, hw, hlock, hmx, hwm, hrm⟩ := h
  obtain ⟨⟨cache, last, lockH⟩, wcalls, wph, rph⟩ := k
  simp only at hw hlock hwm hrm
  cases rph with
  | ready =>
    by_cases hl : lockH = none
    · have hwf : wHolds wph = false := by
        rw [hl] at hlock
        cases hwb : wHolds wph
        · rfl
        · rw [hwb] at hlock
          simp at hlock
      have hstep : stepR ⟨⟨cache, last, lockH⟩, wcalls, wph, .ready⟩ =
          ⟨⟨cache, last, some false⟩, wcalls, wph, .preC⟩ := by
        simp [stepR, hl]
      rw [hstep]
      refine ⟨n, hn, hw, ?_, ?_, hwm, hwf⟩
      · rw [hwf]
        rfl
      · intro hh
        rw [hwf] at hh
        exact Bool.noConfusion hh
    · have hstep : stepR ⟨⟨cache, last, lockH⟩, wcalls, wph, .ready⟩ =
          ⟨⟨cache, last, lockH⟩, wcalls, wph, .ready⟩ := by
        simp [stepR, hl]
      rw [hstep]
      exact ⟨n, hn, hw, hlock, hmx, hwm, hrm⟩
  | preC =>
    have hwf : wHolds wph = false := hrm
    have hstep : stepR ⟨⟨cache, last, lockH⟩, wcalls, wph, .preC⟩ =
        ⟨⟨cache, last, lockH⟩, wcalls, wph, .preU cache⟩ := rfl
    rw [hstep]
    refine ⟨n, hn, hw, ?_, ?_, hwm, ?_⟩
    · rw [hwf] at hlock
      show lockH = if wHolds wph then some true else if rHolds (.preU cache) then some false else none
      rw [hwf]
      exact hlock
    · intro hh
      rw [hwf] at hh
      exact Bool.noConfusion hh
    · exact ⟨hwf, rfl⟩
  | preU c =>
    obtain ⟨hwf, hc⟩ := hrm
    have hstep : stepR ⟨⟨cache, last, lockH⟩, wcalls, wph, .preU c⟩ =
        ⟨⟨cache, last, lockH⟩, wcalls, wph, .preUnl c last⟩ := rfl
    rw [hstep]
    refine ⟨n, hn, hw, ?_, ?_, hwm, ?_⟩
    · rw [hwf] at hlock
      show lockH = if wHolds wph then some true else if rHolds (.preUnl c last) then some false else none
      rw [hwf]
      exact hlock
    · intro hh
      rw [hwf] at hh
      exact Bool.noConfusion hh
    · exact ⟨hwf, hc, rfl⟩
  | preUnl c u =>
    obtain ⟨hwf, hc, hu⟩ := hrm
    have hwr : wph = .ready := wHolds_false wph hwf
    subst hwr
    have hsnap : (cache, last) = snapAfter calls n := hwm
    have hstep : stepR ⟨⟨cache, last, lockH⟩, wcalls, .ready, .preUnl c u⟩ =
        ⟨⟨cache, last, none⟩, wcalls, .ready, .done c u⟩ := rfl
    rw [hstep]
    refine ⟨n, hn, hw, rfl, fun hh => rfl, hwm, ?_⟩
    exact ⟨n, hn, by rw [hc, hu]; exact hsnap⟩
  | done c u =>
    exact ⟨n, hn, hw, hlock, hmx, hwm, hrm⟩

theorem runSched_inv (calls : List Call) (sched : List Bool) :
    Inv calls (runSched (initConf calls) sched) := by
  unfold runSched
  have main : ∀ (l : List Bool) (k : Conf), Inv calls k →
      Inv calls (l.foldl (fun k b => if b then stepW k else stepR k) k) := by
    intro l
    induction l with
    | nil => intro k hk; exact hk
    | cons b l ih =>
      intro k hk
      rw [List.foldl_cons]
      apply ih
      cases b
      · exact stepR_inv calls k hk
      · exact stepW_inv calls k hk
  exact main sched _ (inv_init calls)

/-- C3: replacement atomicity.  The writer's `replace_all` critical section
(stamp, write the mapping, write the timestamp) and a reader's `get_all`
critical section are serialized by the cache's single lock; for every
sequence of `replace_all` calls and every interleaving of the two threads'
primitive steps, a completed `get_all` returns exactly the mapping and
timestamp committed by some prefix of the calls — never a mixture of old
entries with a new timestamp or vice versa. -/
theorem c3_replacement_atomicity (calls : List Call) (sched : List Bool)
    (c : Dict HostEntry) (u : Option ℚ)
    (h : (runSched (initConf calls) sched).rph = .done c u) :
    ∃ n, n ≤ calls.length ∧ (c, u) = snapAfter calls n := by
  obtain ⟨n, hn, hw, hlock, hmx, hwm, hrm⟩ := runSched_inv calls sched
  unfold RInv at hrm
  rw [h] at hrm
  exact hrm

/-- C3 witness: a writer performing one `replace_all` interleaved with a full
`get_all`; the reader observes the complete state after that call. -/
theorem c3_replacement_atomicity_witness :
    ∃ n, n ≤ ([⟨[("h1", parsedEntry 1 "h1")], 10, 11⟩] : List Call).length ∧
      ((stampAll 10 [("h1", parsedEntry 1 "h1")], (some 11 : Option ℚ)) =
        snapAfter [⟨[("h1", parsedEntry 1 "h1")], 10, 11⟩] n) :=
  c3_replacement_atomicity [⟨[("h1", parsedEntry 1 "h1")], 10, 11⟩]
    [true, true, true, true, false, false, false, false]
    (stampAll 10 [("h1", parsedEntry 1 "h1")]) (some 11) (by decide)

end Rewol
